import Mathlib

/-!
# Verification of the newsletter-digest article extractor

Shallow embedding of `src/processors/extractor.py` (class `ArticleExtractor`)
and the configuration constants it reads from `config.py`.

Python strings are modelled as `List Char`; each Python string operation the
source uses (`strip`, `lower`, `split`, `rsplit`, `startswith`, the `in`
substring test, `re.sub(r"\s+", " ", ...)`) is given its own executable
model below.  Parsed HTML (the BeautifulSoup tree) is modelled by the
inductive `Html`; a parsed document is represented by its soup node (name
`[document]`) whose children are the parsed top-level nodes, mirroring the
`BeautifulSoup` object.
-/

namespace NewsDigest

/-- Model of a Python `str`: a list of unicode code points. -/
abbrev Str := List Char

/-- Convenience conversion for string literals. -/
def str (s : String) : Str := s.toList

/-- Python whitespace as used by `str.strip()`, `str.split()` and the regex
`\s` (ASCII range; the inputs of interest are ASCII). -/
def isPyWs (c : Char) : Bool :=
  c == ' ' || c == '\t' || c == '\n' || c == '\r' || c == '\x0b' || c == '\x0c'

/-- Python `s.strip()` (no argument): drop whitespace from both ends. -/
def pyStrip (l : Str) : Str :=
  ((l.dropWhile isPyWs).reverse.dropWhile isPyWs).reverse

/-- Python `s.lstrip` restricted to a character predicate. -/
def pyLStrip (p : Char → Bool) (l : Str) : Str := l.dropWhile p

/-- Python `s.strip('/')`: drop `/` characters from both ends. -/
def pyStripSlash (l : Str) : Str :=
  ((l.dropWhile (fun c => c == '/')).reverse.dropWhile (fun c => c == '/')).reverse

/-- Python `s.lower()` (ASCII letters; the classifier compares ASCII data). -/
def pyLower (l : Str) : Str := l.map Char.toLower

/-- Accumulator pass behind `pyWords`. -/
def wordsAux : Str → Str → List Str
  | [], acc => if acc.isEmpty then [] else [acc.reverse]
  | c :: cs, acc =>
    if isPyWs c then
      if acc.isEmpty then wordsAux cs [] else acc.reverse :: wordsAux cs []
    else
      wordsAux cs (c :: acc)

/-- Python `s.split()` with no argument: maximal runs of non-whitespace. -/
def pyWords (l : Str) : List Str := wordsAux l []

/-- `len(s.split())`, the word count used throughout the extractor. -/
def wordCount (l : Str) : Nat := (pyWords l).length

/-- `sep.join(parts)`. -/
def pyJoin (sep : Str) : List Str → Str
  | [] => []
  | [x] => x
  | x :: xs => x ++ sep ++ pyJoin sep xs

/-- `re.sub(r"\s+", " ", s).strip()`: collapse whitespace runs to single
spaces and trim the ends.  Equivalent to joining `s.split()` with spaces. -/
def collapseWs (l : Str) : Str := pyJoin [' '] (pyWords l)

/-- Python `s.startswith(t)`. -/
def startsWithL : Str → Str → Bool
  | _, [] => true
  | [], _ :: _ => false
  | c :: cs, d :: ds => c == d && startsWithL cs ds

/-- Python substring test `needle in hay`. -/
def containsL : Str → Str → Bool
  | [], needle => needle.isEmpty
  | c :: rest, needle => startsWithL (c :: rest) needle || containsL rest needle

/-- Accumulator pass behind `pySplitChar`. -/
def splitChAux (c : Char) : Str → Str → List Str
  | [], acc => [acc.reverse]
  | x :: xs, acc =>
    if x == c then acc.reverse :: splitChAux c xs []
    else splitChAux c xs (x :: acc)

/-- Python `s.split(ch)` for a single-character separator. -/
def pySplitChar (c : Char) (l : Str) : List Str := splitChAux c l []

/-- Python `s.rsplit(' ', 1)[0]`: everything before the last space, or the
whole string when it holds no space. -/
def rsplitSpaceHead (l : Str) : Str :=
  if l.contains ' ' then
    (((l.reverse.dropWhile (fun c => !(c == ' '))).drop 1)).reverse
  else l

/-- Python `s.find(ch, k)` (restricted to success): index of the first
occurrence of `ch` at position `≥ k`. -/
def pyFindFrom (c : Char) (l : Str) (k : Nat) : Option Nat :=
  match (l.drop k).findIdx? (fun x => x == c) with
  | some j => some (k + j)
  | none => none

/-- Python `s.rfind(ch)` (restricted to success): index of the last
occurrence of `ch`. -/
def pyRFind (c : Char) (l : Str) : Option Nat :=
  match l.reverse.findIdx? (fun x => x == c) with
  | some j => some (l.length - 1 - j)
  | none => none

/-! ## Model of `urllib.parse.urlparse(...).path`

The extractor only reads the `path` component, inside a `try/except` that
turns any `ValueError` into an empty segment list.  The model follows
CPython's `urlsplit`: unsafe bytes (tab, CR, LF) are removed, leading
C0-control-or-space characters are stripped, a scheme is split off when the
text before the first `:` is a valid scheme, an authority delimited by `//`
runs until the next `/`, `?` or `#`, then fragment and query are cut off.
Mismatched square brackets in the authority raise `ValueError` (newer
CPython additionally validates a bracketed IPv6/IPvFuture host, which this
model does not attempt; square-bracket hosts do not occur in the inputs of
interest).  `urlparse` additionally splits `;params` off the last path
segment. -/

/-- `scheme_chars` of `urllib.parse`. -/
def isSchemeChar (c : Char) : Bool :=
  c.isAlpha || c.isDigit || c == '+' || c == '-' || c == '.'

/-- WHATWG C0-control-or-space, stripped from the front of a URL. -/
def isC0OrSpace (c : Char) : Bool := c.toNat ≤ 0x20

/-- `urlsplit(url).path`, or `ValueError` for mismatched authority brackets. -/
def urlsplitPath (url0 : Str) : Except Unit Str :=
  let url1 := (url0.dropWhile isC0OrSpace).filter
    (fun c => !(c == '\t' || c == '\r' || c == '\n'))
  let url2 :=
    match url1.findIdx? (fun c => c == ':') with
    | some i =>
      if 0 < i && (url1.take i).all isSchemeChar &&
          (match url1.head? with | some c => c.isAlpha | none => false) then
        url1.drop (i + 1)
      else url1
    | none => url1
  let netloc :=
    if startsWithL url2 (str "//") then
      let rest := url2.drop 2
      rest.take ((rest.findIdx? (fun c => c == '/' || c == '?' || c == '#')).getD rest.length)
    else []
  let url3 :=
    if startsWithL url2 (str "//") then
      let rest := url2.drop 2
      rest.drop ((rest.findIdx? (fun c => c == '/' || c == '?' || c == '#')).getD rest.length)
    else url2
  if (netloc.contains '[' && !(netloc.contains ']')) ||
     (netloc.contains ']' && !(netloc.contains '[')) then
    .error ()
  else
    let url4 := if url3.contains '#' then url3.takeWhile (fun c => !(c == '#')) else url3
    let url5 := if url4.contains '?' then url4.takeWhile (fun c => !(c == '?')) else url4
    .ok url5

/-- `urllib.parse._splitparams` applied to a path known to hold a `;`. -/
def splitParams (p : Str) : Str :=
  if p.contains '/' then
    match pyRFind '/' p with
    | some r =>
      match pyFindFrom ';' p r with
      | some i => p.take i
      | none => p
    | none => p
  else
    match p.findIdx? (fun c => c == ';') with
    | some i => p.take i
    | none => p

/-- `urlparse(url).path`: `urlsplit` plus the params split. -/
def urlparsePath (url : Str) : Except Unit Str :=
  match urlsplitPath url with
  | .error e => .error e
  | .ok p => .ok (if p.contains ';' then splitParams p else p)

/-- `urlparse(lower_url).path.strip('/').split('/')` under the source's
`try/except`: an exception yields `[]` (extractor.py lines 338–341). -/
def pathPartsOf (lowerUrl : Str) : List Str :=
  match urlparsePath lowerUrl with
  | .ok p => pySplitChar '/' (pyStripSlash p)
  | .error _ => []

/-! ## Constants from `extractor.py` and `config.py` -/

/-- `PAYWALL_PHRASES` (extractor.py lines 39–44). -/
def PAYWALL_PHRASES : List Str :=
  ["subscribe to read", "paywall", "premium content",
   "unlock this article", "sign up to continue", "member only",
   "paid subscribers only", "read the full article", "continue reading",
   "behind a paywall", "premium member", "subscription required"].map str

/-- `NOISE_PATH_SEGMENTS` (extractor.py lines 46–52). -/
def NOISE_PATH_SEGMENTS : List Str :=
  ["disclaimer", "legal", "terms", "privacy", "cookie",
   "unsubscribe", "preferences", "settings", "about",
   "contact", "careers", "investors", "ir", "press",
   "login", "signup", "register", "help", "support",
   "faq", "sitemap", "robots", "policy", "policies"].map str

/-- `NOISE_ANCHOR_PHRASES` (extractor.py lines 54–59). -/
def NOISE_ANCHOR_PHRASES : List Str :=
  ["disclaimer", "terms of", "privacy policy", "cookie",
   "unsubscribe", "view in browser", "read in browser",
   "click here to unsubscribe", "manage preferences",
   "forward this email", "view online", "web version"].map str

/-- `MAX_BLURB_CHARS` (extractor.py line 62). -/
def MAX_BLURB_CHARS : Nat := 600

/-- The platform/scheme substrings tested first in `_is_noise_url` and
`_score_link` (extractor.py lines 333–334 and 355–356). -/
def socialDomains : List Str :=
  ["twitter.com", "facebook.com", "instagram.com",
   "linkedin.com", "youtube.com", "mailto:", "javascript:"].map str

/-- `article_signals` (extractor.py line 382). -/
def articleSignals : List Str :=
  ["article", "post", "story", "news", "blog", "opinion", "analysis"].map str

/-- `config.MIN_WORD_COUNT` (config.py line 41). -/
def MIN_WORD_COUNT : Nat := 100

/-- `config.ESSAY_NEWSLETTERS` (config.py lines 49–54). -/
def ESSAY_NEWSLETTERS : List Str :=
  ["stratechery", "hanania", "clouded judgement", "dwarkesh"].map str

/-! ## Noise detection and link scoring -/

/-- `ArticleExtractor._is_noise_url` (extractor.py lines 328–348). -/
def isNoiseUrl (url anchorText : Str) : Bool :=
  let lowerUrl := pyLower url
  let lowerText := pyLower anchorText
  if socialDomains.any (fun d => containsL lowerUrl d) then true
  else if (pathPartsOf lowerUrl).any (fun seg => NOISE_PATH_SEGMENTS.contains seg) then true
  else if NOISE_ANCHOR_PHRASES.any (fun ph => containsL lowerText ph) then true
  else false

/-- `ArticleExtractor._score_link` (extractor.py lines 350–386).  The score
is built additively exactly as in the source; it is never negative, so it
is modelled as a `Nat`. -/
def scoreLink (url anchorText : Str) : Nat :=
  let lowerUrl := pyLower url
  let lowerText := pyLower anchorText
  if socialDomains.any (fun d => containsL lowerUrl d) then 0
  else
    let pathParts := pathPartsOf lowerUrl
    if pathParts.any (fun seg => NOISE_PATH_SEGMENTS.contains seg) then 0
    else if NOISE_ANCHOR_PHRASES.any (fun ph => containsL lowerText ph) then 0
    else
      let words := wordCount anchorText
      let score1 := 1 + (if 4 ≤ words then 3 else if 2 ≤ words then 1 else 0)
      let depth := (pathParts.filter (fun p => !p.isEmpty)).length
      let score2 := score1 + (if 3 ≤ depth then 2 else if 2 ≤ depth then 1 else 0)
      score2 + (if articleSignals.any (fun sig => containsL lowerUrl sig) then 2 else 0)

/-- `ArticleExtractor._detect_paywall` (extractor.py lines 407–410). -/
def detectPaywall (text : Str) : Bool :=
  let lower := pyLower text
  PAYWALL_PHRASES.any (fun phrase => containsL lower phrase)

/-- `ArticleExtractor._is_essay_newsletter` (extractor.py lines 234–238). -/
def isEssayNewsletter (newsletterName : Str) : Bool :=
  let nameLower := pyLower newsletterName
  ESSAY_NEWSLETTERS.any (fun kw => containsL nameLower kw)

/-! ## The parsed HTML tree

`Html` models the BeautifulSoup node tree: a node is either a
`NavigableString` (which, in bs4, has no `name` attribute — the source's
`hasattr(element, 'name')` test) or a tag with a name, attributes and
children.  A parsed document is represented by its soup node, an element
conventionally named `[document]` whose children are the parsed top-level
nodes. -/

inductive Html where
  | text : Str → Html
  | elem : Str → List (Str × Str) → List Html → Html

/-- Build a text node from a literal. -/
def txt (s : String) : Html := .text s.toList

/-- Build an element node from literals. -/
def el (n : String) (attrs : List (String × String)) (cs : List Html) : Html :=
  .elem n.toList (attrs.map (fun p => (p.1.toList, p.2.toList))) cs

/-- Tag name (ancestors in the parent walk are always tags). -/
def Html.name : Html → Str
  | .text _ => []
  | .elem n _ _ => n

/-- The node's direct children (`body.children`; text nodes have none). -/
def Html.childrenL : Html → List Html
  | .text _ => []
  | .elem _ _ cs => cs

/-- Attribute lookup, `tag['href']` / `href=True`. -/
def getAttr (attrs : List (Str × Str)) (k : Str) : Option Str :=
  (attrs.find? (fun p => p.1 == k)).map (fun p => p.2)

mutual
/-- All text-node strings in the subtree, in document order. -/
def Html.texts : Html → List Str
  | .text s => [s]
  | .elem _ _ cs => textsL cs
/-- `Html.texts` over a list of siblings. -/
def textsL : List Html → List Str
  | [] => []
  | h :: t => h.texts ++ textsL t
end

/-- BeautifulSoup `get_text(separator=sep, strip=True)`: every string in
the subtree is stripped, empties are dropped, and the rest are joined with
`sep` (the source always passes `strip=True`; `sep` is `''` or `' '`). -/
def getTextStrip (sep : Str) (h : Html) : Str :=
  pyJoin sep (((Html.texts h).map pyStrip).filter (fun s => !s.isEmpty))

mutual
/-- First element with the given name in the subtree, preorder,
including the root (used through `findDesc` below). -/
def findNamed (nm : Str) : Html → Option Html
  | .text _ => none
  | .elem n a cs => if n == nm then some (.elem n a cs) else findNamedL nm cs
/-- `findNamed` over a list of siblings. -/
def findNamedL (nm : Str) : List Html → Option Html
  | [] => none
  | h :: t =>
    match findNamed nm h with
    | some r => some r
    | none => findNamedL nm t
end

/-- BeautifulSoup `node.find(name)`: first matching element among the
strict descendants of `node`, in document order. -/
def findDesc (nm : Str) (h : Html) : Option Html := findNamedL nm h.childrenL

/-- An `<a href=...>` occurrence found by `find_all('a', href=True)`:
its raw `href`, its `get_text(strip=True)` text, its enclosing elements
(nearest first) and the anchor node itself. -/
structure AnchorOcc where
  href : Str
  text : Str
  ancestors : List Html
  node : Html

mutual
/-- Anchor occurrences in the subtree (including the root when it is
itself an anchor), in document order; `anc` are the elements enclosing the
subtree, nearest first. -/
def anchorOccs : Html → List Html → List AnchorOcc
  | .text _, _ => []
  | .elem n a cs, anc =>
    let here :=
      match getAttr a (str "href") with
      | some hv => if n == str "a" then
          [⟨hv, getTextStrip [] (.elem n a cs), anc, .elem n a cs⟩] else []
      | none => []
    here ++ anchorOccsL cs (.elem n a cs :: anc)
/-- `anchorOccs` over a list of siblings. -/
def anchorOccsL : List Html → List Html → List AnchorOcc
  | [], _ => []
  | h :: t, anc => anchorOccs h anc ++ anchorOccsL t anc
end

/-- BeautifulSoup `node.find_all('a', href=True)`: anchors among the strict
descendants of `node`, in document order. -/
def findAllAnchors (h : Html) : List AnchorOcc := anchorOccsL h.childrenL [h]

/-! ## Article records and the finalizer -/

/-- The article dict produced by the extractor.  The three newsletter
fields, `paywall_detected` and `article_type` are absent until the facade
stamps them; the model carries them from the start with empty/false
placeholders, which the strategies never read. -/
structure Article where
  title : Str
  url : Str
  content : Str
  blurb : Str
  content_snippet : Str
  word_count : Nat
  author : Option Str
  publish_date : Option Str
  newsletter_name : Str
  newsletter_email : Str
  received_timestamp : Str
  paywall_detected : Bool
  article_type : Str
deriving DecidableEq

/-- A section bucket (`current` in `_extract_by_sections`). -/
structure Bucket where
  title : Str
  url : Str
  raw : Str
  author : Option Str
  publish_date : Option Str
deriving DecidableEq

/-- `ArticleExtractor._extract_blurb` (extractor.py lines 272–295). -/
def extractBlurb (content title : Str) : Str :=
  let blurb0 := pyStrip content
  let blurb1 :=
    if startsWithL (pyLower blurb0) (pyLower title) then pyStrip (blurb0.drop title.length)
    else blurb0
  let blurb2 := collapseWs blurb1
  if MAX_BLURB_CHARS < blurb2.length then
    rsplitSpaceHead (blurb2.take MAX_BLURB_CHARS) ++ str " …"
  else blurb2

/-- `ArticleExtractor._finalise` (extractor.py lines 300–323). -/
def finalise (bucket : Bucket) : Article :=
  let content := collapseWs bucket.raw
  let title := bucket.title
  let blurb0 := content
  let blurb1 :=
    if startsWithL (pyLower blurb0) (pyLower title) then pyStrip (blurb0.drop title.length)
    else blurb0
  let blurb2 := collapseWs blurb1
  let blurb :=
    if MAX_BLURB_CHARS < blurb2.length then
      rsplitSpaceHead (blurb2.take MAX_BLURB_CHARS) ++ str " …"
    else blurb2
  { title := title, url := bucket.url, content := content, blurb := blurb,
    content_snippet := content.take 500, word_count := wordCount content,
    author := bucket.author, publish_date := bucket.publish_date,
    newsletter_name := [], newsletter_email := [], received_timestamp := [],
    paywall_detected := false, article_type := [] }

/-- `ArticleExtractor._classify` (extractor.py lines 240–267). -/
def classify (url0 newsletterEmail : Str) (forceEssay : Bool) : Str :=
  if forceEssay then str "essay"
  else
    let url := pyStrip url0
    if url.isEmpty then str "essay"
    else if newsletterEmail.contains '@' then
      let nlDomain := pyLower ((pySplitChar '@' newsletterEmail).getD 1 [])
      if containsL (pyLower url) nlDomain then str "essay" else str "link"
    else str "link"

/-! ## Strategy 1 — section-based -/

/-- The loop of `ArticleExtractor._best_link_in` (extractor.py lines
392–405), keeping the best strictly-greater score. -/
def bestLoop : List AnchorOcc → Option Str → Nat → Option Str
  | [], best, _ => best
  | a :: rest, best, bestScore =>
    let url := pyStrip a.href
    if !(startsWithL url (str "http")) then bestLoop rest best bestScore
    else
      let score := scoreLink url a.text
      if bestScore < score then bestLoop rest (some url) score
      else bestLoop rest best bestScore

/-- `ArticleExtractor._best_link_in` (extractor.py lines 388–405); text
nodes have no `find_all`. -/
def bestLinkIn : Html → Option Str
  | .text _ => none
  | .elem n a cs => bestLoop (findAllAnchors (.elem n a cs)) none 0

/-- The `for element in body.children` loop of `_extract_by_sections`
(extractor.py lines 123–149), returning the finished buckets in order. -/
def sectionsLoop : List Html → Option Bucket → List Bucket
  | [], none => []
  | [], some cur => [cur]
  | .text s :: rest, cur =>
    match cur with
    | none => sectionsLoop rest none
    | some c => sectionsLoop rest (some { c with raw := c.raw ++ pyStrip s ++ [' '] })
  | .elem n a cs :: rest, cur =>
    if n == str "h2" || n == str "h3" then
      let finished := match cur with | some c => [c] | none => []
      let element := Html.elem n a cs
      finished ++ sectionsLoop rest (some {
        title := getTextStrip [] element,
        url := (bestLinkIn element).getD [],
        raw := [], author := none, publish_date := none })
    else
      match cur with
      | none => sectionsLoop rest none
      | some c =>
        let element := Html.elem n a cs
        let c1 := { c with raw := c.raw ++ getTextStrip [' '] element ++ [' '] }
        let c2 := if c1.url.isEmpty then { c1 with url := (bestLinkIn element).getD [] } else c1
        sectionsLoop rest (some c2)

/-- `ArticleExtractor._extract_by_sections` (extractor.py lines 114–151). -/
def extractBySections (soup : Html) : List Article :=
  let body := (findDesc (str "body") soup).getD soup
  ((sectionsLoop body.childrenL none).map finalise).filter (fun a => 0 < a.word_count)

/-! ## Strategy 2 — link-based -/

/-- Block-level boundary names of the parent walk (extractor.py line 185). -/
def blockNames : List Str := ["td", "div", "section", "article", "li", "p"].map str

/-- The bounded parent walk of `_extract_by_links` (extractor.py lines
180–188): climb at most five ancestors, stopping early at the first
block-level element. -/
def walkUp : Nat → Html → List Html → Html
  | 0, cb, _ => cb
  | _ + 1, cb, [] => cb
  | n + 1, _, p :: ps => if blockNames.contains p.name then p else walkUp n p ps

/-- The anchor loop of `_extract_by_links` (extractor.py lines 161–201);
`seen` models the `seen_urls` set. -/
def linksLoop : List AnchorOcc → List Str → List Article
  | [], _ => []
  | a :: rest, seen =>
    let url := pyStrip a.href
    if !(startsWithL url (str "http")) then linksLoop rest seen
    else if isNoiseUrl url a.text then linksLoop rest seen
    else if seen.contains url then linksLoop rest seen
    else
      let seen1 := url :: seen
      let title := a.text
      if title.isEmpty || title.length < 10 then linksLoop rest seen1
      else
        let contentBlock := walkUp 5 a.node a.ancestors
        let content := getTextStrip [' '] contentBlock
        { title := title, url := url, content := content,
          blurb := extractBlurb content title,
          content_snippet := content.take 500,
          word_count := wordCount content,
          author := none, publish_date := none,
          newsletter_name := [], newsletter_email := [], received_timestamp := [],
          paywall_detected := false, article_type := [] } :: linksLoop rest seen1

/-- `ArticleExtractor._extract_by_links` (extractor.py lines 156–203). -/
def extractByLinks (soup : Html) : List Article :=
  linksLoop (findAllAnchors soup) []

/-! ## Strategy 3 — fallback -/

/-- The title loop of `_extract_fallback` (extractor.py lines 213–218):
first stripped line whose length lies strictly between 10 and 120. -/
def fallbackTitle (text : Str) : Str :=
  match ((pySplitChar '\n' text).map pyStrip).find? (fun l => 10 < l.length && l.length < 120) with
  | some l => l
  | none => str "Newsletter"

/-- `ArticleExtractor._extract_fallback` (extractor.py lines 208–229). -/
def extractFallback (soup : Html) : List Article :=
  let text := collapseWs (getTextStrip [' '] soup)
  [{ title := fallbackTitle text, url := [], content := text, blurb := [],
     content_snippet := text.take 500, word_count := wordCount text,
     author := none, publish_date := none,
     newsletter_name := [], newsletter_email := [], received_timestamp := [],
     paywall_detected := false, article_type := [] }]

/-! ## The facade -/

/-- The per-article stamping of `extract_from_email` (lines 99–104). -/
def stamp (newsletterName newsletterEmail receivedTimestamp : Str)
    (forceEssay : Bool) (a : Article) : Article :=
  { a with newsletter_name := newsletterName,
           newsletter_email := newsletterEmail,
           received_timestamp := receivedTimestamp,
           paywall_detected := detectPaywall a.content,
           article_type := classify a.url newsletterEmail forceEssay }

/-- The strategy chain of `extract_from_email` (lines 89–94). -/
def runStrategies (soup : Html) : List Article :=
  let articles := extractBySections soup
  let articles := if articles.isEmpty then extractByLinks soup else articles
  if articles.isEmpty then extractFallback soup else articles

/-- `ArticleExtractor.extract_from_email` (extractor.py lines 71–109).
`soup` stands for `BeautifulSoup(html_content, 'html.parser')`, supplied by
the external parser and consulted only when `html_content` is non-empty. -/
def extractFromEmail (htmlContent : Str) (soup : Html)
    (newsletterName newsletterEmail receivedTimestamp : Str) : List Article :=
  if htmlContent.isEmpty then []
  else
    let forceEssay := isEssayNewsletter newsletterName
    ((runStrategies soup).map
        (stamp newsletterName newsletterEmail receivedTimestamp forceEssay)).filter
      (fun a => MIN_WORD_COUNT ≤ a.word_count)

/-! ## Claim-side specification functions

These definitions follow the wording of the specification claims (not the
source); theorems below compare them with the source functions. -/

/-- The classifier exactly as claim C3 words it: `force_essay` wins, then
an *empty* URL (no stripping), then the portion of the email after the
first `@` as a case-insensitive substring of the URL. -/
def classifySpecC3 (url email : Str) (force : Bool) : Str :=
  if force then str "essay"
  else if url.isEmpty then str "essay"
  else if email.contains '@' &&
      containsL (pyLower url) (pyLower ((email.dropWhile (fun c => !(c == '@'))).drop 1)) then
    str "essay"
  else str "link"

/-- The classifier as amended: the URL is stripped of surrounding
whitespace before the emptiness and substring tests, and the matched
domain is the portion of the email between the first and second `@`. -/
def classifySpecC3Amended (url0 email : Str) (force : Bool) : Str :=
  if force then str "essay"
  else if (pyStrip url0).isEmpty then str "essay"
  else if email.contains '@' &&
      containsL (pyLower (pyStrip url0)) (pyLower ((pySplitChar '@' email).getD 1 [])) then
    str "essay"
  else str "link"

/-- Claim C5's reading of the fallback title: the first line of the
document's visible text (before whitespace collapsing) whose stripped
length lies strictly between 10 and 120; `Newsletter` when none does. -/
def specFallbackTitleC5 (soup : Html) : Str :=
  match ((pySplitChar '\n' (getTextStrip [' '] soup)).map pyStrip).find?
      (fun l => 10 < l.length && l.length < 120) with
  | some l => l
  | none => str "Newsletter"

/-- Claim C6, noise test 1: the URL names a known social/video platform
(the source's fixed list, which also holds the `mailto:` and `javascript:`
schemes). -/
def noisePlatform (url : Str) : Bool :=
  socialDomains.any (fun d => containsL (pyLower url) d)

/-- Claim C6, noise test 2: some exact path segment of the URL is in the
fixed noise-segment set. -/
def noiseSegment (url : Str) : Bool :=
  (pathPartsOf (pyLower url)).any (fun seg => NOISE_PATH_SEGMENTS.contains seg)

/-- Claim C6, noise test 3: the anchor text holds a fixed noise phrase,
case-insensitively. -/
def noisePhrase (text : Str) : Bool :=
  NOISE_ANCHOR_PHRASES.any (fun ph => containsL (pyLower text) ph)

/-- Claim C6's additive score for a non-noise pair: base 1, plus 3 for at
least four anchor words (1 for two or three), plus 2 for path depth at
least 3 (1 for depth 2), plus 2 for an article-signal keyword. -/
def specScore (url text : Str) : Nat :=
  1 + (if 4 ≤ wordCount text then 3 else if 2 ≤ wordCount text then 1 else 0)
    + (if 3 ≤ ((pathPartsOf (pyLower url)).filter (fun p => !p.isEmpty)).length then 2
       else if 2 ≤ ((pathPartsOf (pyLower url)).filter (fun p => !p.isEmpty)).length then 1 else 0)
    + (if articleSignals.any (fun sig => containsL (pyLower url) sig) then 2 else 0)

/-- The candidate tests of the link loop that precede the dedup insertion
(extractor.py lines 165–169), for a fixed stripped URL `u`. -/
def isCand (u : Str) (a : AnchorOcc) : Bool :=
  pyStrip a.href == u && startsWithL (pyStrip a.href) (str "http") &&
    !(isNoiseUrl (pyStrip a.href) a.text)

/-- Claim C10's hypothesis on a list of anchors: the first candidate
occurrence of `u` carries anchor text shorter than ten characters. -/
def firstShortL (l : List AnchorOcc) (u : Str) : Bool :=
  match (l.filter (isCand u)).head? with
  | some a => decide (a.text.length < 10)
  | none => false

/-- Claim C10's hypothesis on a document. -/
def firstCandShort (soup : Html) (u : Str) : Bool :=
  firstShortL (findAllAnchors soup) u

/-! ## Concrete documents used by witnesses and counterexamples -/

/-- One hundred short words — enough to pass `MIN_WORD_COUNT`. -/
def hundredWords : Str := pyJoin [' '] (List.replicate 100 (str "aa"))

/-- A document whose body starts with an `<h2>` followed by a paragraph of
text and a link: section-based extraction succeeds. -/
def docSections : Html :=
  el "[document]" [] [el "body" [] [
    el "h2" [] [txt "First Story Headline"],
    el "p" [] [
      el "a" [("href", "http://ex.com/posts/one")] [txt "Read the first story now"],
      Html.text hundredWords]]]

/-- A document with an `<h2>` nested inside a `<div>` (so it is not a
direct child of the body) next to a linked paragraph: section-based
extraction finds nothing and link-based extraction fires. -/
def docNested : Html :=
  el "[document]" [] [el "body" [] [
    el "div" [] [el "h2" [] [txt "Nested Headline"]],
    el "p" [] [
      el "a" [("href", "http://example.com/a/b/c")] [txt "Interesting read here"],
      Html.text hundredWords]]]

/-- A document that is plain text: only the fallback strategy fires. -/
def docFallback : Html :=
  el "[document]" [] [el "body" [] [Html.text hundredWords]]

/-- A document whose visible text has a short first line and a long second
line. -/
def docTwoLines : Html :=
  el "[document]" [] [el "body" [] [
    Html.text (str "Good Title Here\n" ++ List.replicate 110 'x')]]

/-- A document with two anchors to the same URL: the first with short
anchor text, the second with long anchor text. -/
def docDup : Html :=
  el "[document]" [] [el "body" [] [
    el "p" [] [
      el "a" [("href", "http://ex.com/a/b")] [txt "tiny"],
      el "a" [("href", "http://ex.com/a/b")] [txt "a much longer anchor text"],
      txt "some content"]]]

/-- A default article record (used only as the `getD` fallback below). -/
def emptyArticle : Article :=
  { title := [], url := [], content := [], blurb := [], content_snippet := [],
    word_count := 0, author := none, publish_date := none,
    newsletter_name := [], newsletter_email := [], received_timestamp := [],
    paywall_detected := false, article_type := [] }

/-- The article the pipeline extracts from `docFallback`. -/
def aFall : Article := (extractFromEmail (str "x") docFallback [] [] []).getD 0 emptyArticle

/-- The article the pipeline extracts from `docSections`. -/
def aSec : Article := (extractFromEmail (str "x") docSections [] [] []).getD 0 emptyArticle

/-- The URL invariant of claim C9: empty, or an `http`-prefixed link. -/
def urlOk (u : Str) : Prop := u = [] ∨ startsWithL u (str "http") = true

/-- The URL invariant carried by section buckets. -/
def bucketUrlOk (b : Bucket) : Prop :=
  b.url = [] ∨ startsWithL b.url (str "http") = true

/-! ## Helper lemmas -/

theorem mem_extractFromEmail (h : Str) (soup : Html) (n e t : Str) (a : Article)
    (ha : a ∈ extractFromEmail h soup n e t) :
    ∃ b ∈ runStrategies soup,
      a = stamp n e t (isEssayNewsletter n) b ∧ MIN_WORD_COUNT ≤ a.word_count := by
  unfold extractFromEmail at ha
  split at ha
  · simp at ha
  · obtain ⟨hm, hw⟩ := List.mem_filter.mp ha
    obtain ⟨b, hb, rfl⟩ := List.mem_map.mp hm
    exact ⟨b, hb, rfl, by simpa using hw⟩

theorem bestLoop_http (l : List AnchorOcc) : ∀ (best : Option Str) (score : Nat),
    (∀ u, best = some u → startsWithL u (str "http") = true) →
    ∀ u, bestLoop l best score = some u → startsWithL u (str "http") = true := by
  induction l with
  | nil =>
    intro best score hb u hu
    simp only [bestLoop] at hu
    exact hb u hu
  | cons a rest ih =>
    intro best score hb u hu
    simp only [bestLoop] at hu
    split at hu
    · exact ih best score hb u hu
    · rename_i hstart
      split at hu
      · refine ih _ _ ?_ u hu
        intro v hv
        have hveq : pyStrip a.href = v := by injection hv
        subst hveq
        simpa using hstart
      · exact ih best score hb u hu

theorem bestLinkIn_http (h : Html) (u : Str) (hu : bestLinkIn h = some u) :
    startsWithL u (str "http") = true := by
  cases h with
  | text s => simp [bestLinkIn] at hu
  | elem nm attrs cs =>
    refine bestLoop_http _ none 0 ?_ u hu
    intro v hv
    cases hv

theorem length_rsplitSpaceHead_le (l : Str) : (rsplitSpaceHead l).length ≤ l.length := by
  unfold rsplitSpaceHead
  split
  · have h1 := (List.dropWhile_sublist (l := l.reverse) (p := fun c => !(c == ' '))).length_le
    simp only [List.length_reverse, List.length_drop] at *
    omega
  · exact Nat.le_refl _

theorem blurbTrim_length_le (b2 : Str) :
    (if MAX_BLURB_CHARS < b2.length then
        rsplitSpaceHead (b2.take MAX_BLURB_CHARS) ++ str " …"
      else b2).length ≤ 602 := by
  by_cases h : MAX_BLURB_CHARS < b2.length
  · rw [if_pos h]
    have h1 := length_rsplitSpaceHead_le (b2.take MAX_BLURB_CHARS)
    have h2 : (b2.take MAX_BLURB_CHARS).length ≤ MAX_BLURB_CHARS :=
      List.length_take_le _ _
    have h3 : (str " …").length = 2 := rfl
    simp only [List.length_append]
    unfold MAX_BLURB_CHARS at *
    omega
  · rw [if_neg h]
    unfold MAX_BLURB_CHARS at h
    omega

theorem classify_essay_or_link (u e : Str) (f : Bool) :
    classify u e f = str "essay" ∨ classify u e f = str "link" := by
  unfold classify
  cases f with
  | true => exact Or.inl rfl
  | false =>
    by_cases hu : pyStrip u = []
    · exact Or.inl (by simp [hu])
    · by_cases he : '@' ∈ e
      · by_cases hc : containsL (pyLower (pyStrip u)) (pyLower ((pySplitChar '@' e)[1]?.getD [])) = true
        · exact Or.inl (by simp [hu, he, hc])
        · exact Or.inr (by simp [hu, he, hc])
      · exact Or.inr (by simp [hu, he])

theorem getD_bestLinkIn_ok (h : Html) :
    (bestLinkIn h).getD [] = [] ∨ startsWithL ((bestLinkIn h).getD []) (str "http") = true := by
  cases hb : bestLinkIn h with
  | none => exact Or.inl rfl
  | some u => exact Or.inr (by simpa using bestLinkIn_http h u hb)

theorem sectionsLoop_url (l : List Html) : ∀ (cur : Option Bucket),
    (∀ c, cur = some c → bucketUrlOk c) →
    ∀ b ∈ sectionsLoop l cur, bucketUrlOk b := by
  induction l with
  | nil =>
    intro cur hc b hb
    cases cur with
    | none => simp [sectionsLoop] at hb
    | some c =>
      simp only [sectionsLoop, List.mem_singleton] at hb
      subst hb
      exact hc b rfl
  | cons hd rest ih =>
    intro cur hc b hb
    cases hd with
    | text s =>
      cases cur with
      | none =>
        simp only [sectionsLoop] at hb
        exact ih none (by intro c hcc; cases hcc) b hb
      | some c =>
        simp only [sectionsLoop] at hb
        refine ih _ ?_ b hb
        intro c2 h2
        have h3 := Option.some.inj h2
        subst h3
        simpa [bucketUrlOk] using hc c rfl
    | elem nm attrs cs =>
      simp only [sectionsLoop] at hb
      split at hb
      · rcases List.mem_append.mp hb with hfin | hrec
        · cases cur with
          | none => simp at hfin
          | some c =>
            simp only [List.mem_singleton] at hfin
            subst hfin
            exact hc b rfl
        · refine ih _ ?_ b hrec
          intro c2 h2
          have h3 := Option.some.inj h2
          subst h3
          simpa [bucketUrlOk] using getD_bestLinkIn_ok (Html.elem nm attrs cs)
      · cases cur with
        | none => exact ih none (by intro c hcc; cases hcc) b hb
        | some c =>
          refine ih _ ?_ b hb
          intro c2 h2
          have h3 := Option.some.inj h2
          subst h3
          split
          · simpa [bucketUrlOk] using getD_bestLinkIn_ok (Html.elem nm attrs cs)
          · simpa [bucketUrlOk] using hc c rfl

theorem extractBySections_url (soup : Html) (a : Article)
    (ha : a ∈ extractBySections soup) : urlOk a.url := by
  unfold extractBySections at ha
  obtain ⟨hm, _⟩ := List.mem_filter.mp ha
  obtain ⟨b, hb, rfl⟩ := List.mem_map.mp hm
  have hbu := sectionsLoop_url _ none (by intro c hcc; cases hcc) b hb
  simpa [finalise, urlOk, bucketUrlOk] using hbu

theorem linksLoop_url (l : List AnchorOcc) : ∀ (seen : List Str) (a : Article),
    a ∈ linksLoop l seen → startsWithL a.url (str "http") = true := by
  induction l with
  | nil =>
    intro seen a ha
    simp [linksLoop] at ha
  | cons occ rest ih =>
    intro seen a ha
    simp only [linksLoop] at ha
    split at ha
    · exact ih _ a ha
    · rename_i hstart
      split at ha
      · exact ih _ a ha
      · split at ha
        · exact ih _ a ha
        · split at ha
          · exact ih _ a ha
          · rcases List.mem_cons.mp ha with rfl | hmem
            · simpa using hstart
            · exact ih _ a hmem

theorem extractFallback_url (soup : Html) (a : Article)
    (ha : a ∈ extractFallback soup) : a.url = [] := by
  simp only [extractFallback, List.mem_singleton] at ha
  subst ha
  rfl

theorem runStrategies_url (soup : Html) (a : Article)
    (ha : a ∈ runStrategies soup) : urlOk a.url := by
  simp only [runStrategies] at ha
  split at ha
  · split at ha
    · exact Or.inl (extractFallback_url soup a ha)
    · exact Or.inr (linksLoop_url _ _ a ha)
  · exact extractBySections_url soup a ha

theorem wordsAux_spec (l : Str) : ∀ (acc : Str), (∀ c ∈ acc, isPyWs c = false) →
    ∀ w ∈ wordsAux l acc, w ≠ [] ∧ ∀ c ∈ w, isPyWs c = false := by
  induction l with
  | nil =>
    intro acc hacc w hw
    simp only [wordsAux] at hw
    split at hw
    · simp at hw
    · rename_i hne
      simp only [List.mem_singleton] at hw
      subst hw
      refine ⟨?_, fun c hc => hacc c (List.mem_reverse.mp hc)⟩
      intro hrev
      exact hne (by simp [List.reverse_eq_nil_iff.mp hrev])
  | cons c cs ih =>
    intro acc hacc w hw
    simp only [wordsAux] at hw
    split at hw
    · split at hw
      · exact ih [] (by simp) w hw
      · rename_i hne
        rcases List.mem_cons.mp hw with rfl | hmem
        · refine ⟨?_, fun c2 hc2 => hacc c2 (List.mem_reverse.mp hc2)⟩
          intro hrev
          exact hne (by simp [List.reverse_eq_nil_iff.mp hrev])
        · exact ih [] (by simp) w hmem
    · rename_i hcws
      refine ih (c :: acc) ?_ w hw
      intro c2 hc2
      rcases List.mem_cons.mp hc2 with rfl | hmem
      · simpa using hcws
      · exact hacc c2 hmem

theorem pyJoin_mem (sep : Str) (ws : List Str) (c : Char) (hc : c ∈ pyJoin sep ws) :
    c ∈ sep ∨ ∃ w ∈ ws, c ∈ w := by
  induction ws with
  | nil => simp [pyJoin] at hc
  | cons w ws2 ih =>
    cases ws2 with
    | nil => exact Or.inr ⟨w, by simp, by simpa [pyJoin] using hc⟩
    | cons w2 ws3 =>
      simp only [pyJoin, List.mem_append] at hc
      rcases hc with (hw | hsep) | hrest
      · exact Or.inr ⟨w, by simp, hw⟩
      · exact Or.inl hsep
      · rcases ih hrest with hs | ⟨w', hw', hcw⟩
        · exact Or.inl hs
        · exact Or.inr ⟨w', List.mem_cons_of_mem _ hw', hcw⟩

theorem collapseWs_no_nl (l : Str) : '\n' ∉ collapseWs l := by
  intro h
  rcases pyJoin_mem [' '] (pyWords l) '\n' h with hsep | ⟨w, hw, hcw⟩
  · simp at hsep
  · have hns := (wordsAux_spec l [] (by simp) w hw).2 '\n' hcw
    simp [isPyWs] at hns

theorem splitChAux_not_mem (c : Char) (l : Str) (hnm : c ∉ l) : ∀ acc,
    splitChAux c l acc = [acc.reverse ++ l] := by
  induction l with
  | nil => intro acc; simp [splitChAux]
  | cons x xs ih =>
    intro acc
    have hx : (x == c) = false := by
      simp only [beq_eq_false_iff_ne, ne_eq]
      intro hxc
      exact hnm (hxc ▸ List.mem_cons_self x xs)
    simp only [splitChAux, hx, Bool.false_eq_true, if_false]
    rw [ih (fun hm => hnm (List.mem_cons_of_mem _ hm)) (x :: acc)]
    simp

theorem pySplitChar_single (c : Char) (l : Str) (hnm : c ∉ l) : pySplitChar c l = [l] := by
  simpa using splitChAux_not_mem c l hnm []

theorem dropWhile_eq_self_of_head (p : Char → Bool) (l : Str)
    (h : ∀ c, l.head? = some c → p c = false) : l.dropWhile p = l := by
  cases l with
  | nil => rfl
  | cons a t => rw [List.dropWhile_cons_of_neg (by simp [h a rfl])]

theorem pyStrip_eq_self (l : Str)
    (h1 : ∀ c, l.head? = some c → isPyWs c = false)
    (h2 : ∀ c, l.getLast? = some c → isPyWs c = false) : pyStrip l = l := by
  unfold pyStrip
  rw [dropWhile_eq_self_of_head _ _ h1]
  rw [dropWhile_eq_self_of_head _ _ (fun c hc => h2 c ((List.head?_reverse l) ▸ hc))]
  exact List.reverse_reverse l

theorem pyJoin_ne_nil (sep : Str) (w : Str) (ws : List Str) (hw : w ≠ []) :
    pyJoin sep (w :: ws) ≠ [] := by
  cases ws with
  | nil => simpa [pyJoin] using hw
  | cons w2 ws2 => simp [pyJoin, hw]

theorem pyJoin_head_in_first (sep : Str) (w : Str) (ws : List Str) (hw : w ≠ []) :
    (pyJoin sep (w :: ws)).head? = w.head? := by
  cases ws with
  | nil => rfl
  | cons w2 ws2 =>
    cases w with
    | nil => exact absurd rfl hw
    | cons a t => rfl

theorem pyJoin_getLast (sep : Str) (ws : List Str) (hne : ∀ w ∈ ws, w ≠ []) :
    ws = [] ∨ ∃ w ∈ ws, (pyJoin sep ws).getLast? = w.getLast? := by
  induction ws with
  | nil => exact Or.inl rfl
  | cons w ws2 ih =>
    right
    cases ws2 with
    | nil => exact ⟨w, by simp, rfl⟩
    | cons w2 ws3 =>
      rcases ih (fun v hv => hne v (List.mem_cons_of_mem _ hv)) with hemp | ⟨w', hw', heq⟩
      · cases hemp
      · refine ⟨w', List.mem_cons_of_mem _ hw', ?_⟩
        have hjn : pyJoin sep (w2 :: ws3) ≠ [] :=
          pyJoin_ne_nil sep w2 ws3 (hne w2 (by simp))
        calc (pyJoin sep (w :: w2 :: ws3)).getLast?
            = (w ++ (sep ++ pyJoin sep (w2 :: ws3))).getLast? := by
              simp only [pyJoin, List.append_assoc]
          _ = (sep ++ pyJoin sep (w2 :: ws3)).getLast? := by
              rw [List.getLast?_append_of_ne_nil]
              simp [hjn]
          _ = (pyJoin sep (w2 :: ws3)).getLast? := by
              rw [List.getLast?_append_of_ne_nil _ hjn]
          _ = w'.getLast? := heq

theorem pyStrip_collapseWs (l : Str) : pyStrip (collapseWs l) = collapseWs l := by
  unfold collapseWs
  rcases hws : pyWords l with _ | ⟨w, ws⟩
  · rfl
  · have hspec : ∀ v ∈ (w :: ws), v ≠ [] ∧ ∀ c ∈ v, isPyWs c = false := by
      intro v hv
      refine wordsAux_spec l [] (by simp) v ?_
      show v ∈ pyWords l
      rw [hws]
      exact hv
    apply pyStrip_eq_self
    · intro c hc
      rw [pyJoin_head_in_first [' '] w ws (hspec w (by simp)).1] at hc
      exact (hspec w (by simp)).2 c (List.mem_of_mem_head? hc)
    · intro c hc
      rcases pyJoin_getLast [' '] (w :: ws)
          (fun v hv => (hspec v hv).1) with hemp | ⟨w', hw', heq⟩
      · cases hemp
      · rw [heq] at hc
        exact (hspec w' hw').2 c (List.mem_of_mem_getLast? hc)

theorem fallbackTitle_collapse (l : Str) :
    fallbackTitle (collapseWs l) =
      (if 10 < (collapseWs l).length ∧ (collapseWs l).length < 120 then collapseWs l
       else str "Newsletter") := by
  have hsplit : ((pySplitChar '\n' (collapseWs l)).map pyStrip) = [collapseWs l] := by
    rw [pySplitChar_single '\n' (collapseWs l) (collapseWs_no_nl l)]
    simp [pyStrip_collapseWs]
  unfold fallbackTitle
  rw [hsplit]
  by_cases hp : 10 < (collapseWs l).length ∧ (collapseWs l).length < 120
  · simp [List.find?_cons, hp, hp.1, hp.2]
  · have hb : (decide (10 < (collapseWs l).length) &&
        decide ((collapseWs l).length < 120)) = false := by
      simpa using hp
    simp [List.find?_cons, hb, hp]

/-! ## Claim theorems -/

/-- C7: `extract_from_email` called with an empty HTML string returns the
empty list immediately, for every parsed document and every combination of
the other three string arguments; the embedding is a total function, so no
exception can be raised. -/
theorem C7_empty_input (soup : Html) (n e t : Str) :
    extractFromEmail [] soup n e t = [] := rfl

/-- C8: `extract_from_email` is deterministic — two calls with identical
arguments (HTML string, parsed document, name, email, timestamp) yield
identical output lists; the embedding is a pure function of its arguments,
mirroring the source's freedom from randomness and hidden state. -/
theorem C8_deterministic (h h' : Str) (s s' : Html) (n n' e e' t t' : Str)
    (hh : h = h') (hs : s = s') (hn : n = n') (he : e = e') (ht : t = t') :
    extractFromEmail h s n e t = extractFromEmail h' s' n' e' t' := by
  subst hh hs hn he ht
  rfl

/-- Witness for C8 at a concrete call. -/
theorem C8_deterministic_witness :
    extractFromEmail (str "x") docSections (str "N") (str "a@ex.com") (str "t")
      = extractFromEmail (str "x") docSections (str "N") (str "a@ex.com") (str "t") :=
  C8_deterministic _ _ _ _ _ _ _ _ _ _ rfl rfl rfl rfl rfl

/-- C3 counterexample: for the whitespace-only URL `" "` (with
`newsletter_email = "a@b.com"`, `force_essay = false`) the code classifies
`essay` — it strips the URL before the emptiness test — while the claim's
rules, taken literally, classify `link`. -/
theorem C3_counterexample :
    classify (str " ") (str "a@b.com") false = str "essay" ∧
    classifySpecC3 (str " ") (str "a@b.com") false = str "link" := by
  constructor
  · rfl
  · rfl

/-- C3 as amended: the rules fire in fixed order with first match winning —
`force_essay`, then URL empty *after stripping surrounding whitespace*,
then the portion of the email between the first and second `@` appearing
case-insensitively in the stripped URL, else `link`; and in particular the
Substack self-host example classifies `essay`. -/
theorem C3_classifier_order (url email : Str) (force : Bool) :
    classify url email force = classifySpecC3Amended url email force ∧
    classify (str "https://mysubstack.substack.com/p/deep-dive")
      (str "author@mysubstack.substack.com") false = str "essay" := by
  refine ⟨?_, by decide⟩
  unfold classify classifySpecC3Amended
  cases force with
  | true => rfl
  | false =>
    by_cases hu : pyStrip url = []
    · simp [hu]
    · by_cases he : '@' ∈ email
      · by_cases hc : containsL (pyLower (pyStrip url))
            (pyLower ((pySplitChar '@' email)[1]?.getD [])) = true
        · simp [hu, he, hc]
        · simp [hu, he, hc]
      · simp [hu, he]

set_option maxRecDepth 8000 in
/-- C4 counterexample: for a 601-character single-word content (and a
title that is not its prefix) the derived blurb has 602 characters — the
truncation keeps all 600 characters when they hold no space and appends a
two-character ellipsis marker — exceeding the claimed 600-character bound. -/
theorem C4_counterexample :
    MAX_BLURB_CHARS < (extractBlurb (List.replicate 601 'a') (str "z")).length := by
  decide

/-- C4 as amended: the derived blurb is at most 602 characters — when the
whitespace-collapsed, title-stripped text exceeds 600 characters it is cut
at the last space within its first 600 characters (kept whole when those
600 characters have no space) and the two-character marker `" …"` is
appended, so the result may reach 601 or 602 characters. -/
theorem C4_blurb_bounded (content title : Str) :
    (extractBlurb content title).length ≤ 602 := by
  unfold extractBlurb
  exact blurbTrim_length_le _

/-- C6: a URL/anchor pair is noise exactly when the URL holds one of the
fixed platform substrings, or an exact path segment from the noise set, or
the anchor text holds a noise phrase case-insensitively; a noise pair
scores 0, a non-noise pair scores the additive formula, and a pair scores
0 exactly when it is noise (so every non-noise pair scores positively). -/
theorem C6_noise_and_score (url text : Str) :
    isNoiseUrl url text = (noisePlatform url || noiseSegment url || noisePhrase text) ∧
    scoreLink url text = (if isNoiseUrl url text then 0 else specScore url text) ∧
    (scoreLink url text = 0 ↔ isNoiseUrl url text = true) := by
  simp only [isNoiseUrl, scoreLink, noisePlatform, noiseSegment, noisePhrase, specScore]
  by_cases h1 : socialDomains.any (fun d => containsL (pyLower url) d) <;>
    by_cases h2 : (pathPartsOf (pyLower url)).any (fun seg => NOISE_PATH_SEGMENTS.contains seg) <;>
      by_cases h3 : NOISE_ANCHOR_PHRASES.any (fun ph => containsL (pyLower text) ph) <;>
        simp [h1, h2, h3, wordCount] <;>
          first
          | omega
          | (rw [Bool.eq_iff_iff]; simp [List.any_eq_true])

/-- C2: every article returned by `extract_from_email` has a word count of
at least `MIN_WORD_COUNT` — whichever strategy produced it — and its
`article_type` is exactly `essay` or `link`. -/
theorem C2_output_invariants (h : Str) (soup : Html) (n e t : Str) (a : Article)
    (ha : a ∈ extractFromEmail h soup n e t) :
    MIN_WORD_COUNT ≤ a.word_count ∧
      (a.article_type = str "essay" ∨ a.article_type = str "link") := by
  obtain ⟨b, hb, rfl, hw⟩ := mem_extractFromEmail h soup n e t a ha
  refine ⟨hw, ?_⟩
  simpa [stamp] using classify_essay_or_link b.url e (isEssayNewsletter n)

set_option maxRecDepth 40000 in
/-- Witness for C2 at a concrete call (the fallback document). -/
theorem C2_output_invariants_witness :
    MIN_WORD_COUNT ≤ aFall.word_count ∧
      (aFall.article_type = str "essay" ∨ aFall.article_type = str "link") :=
  C2_output_invariants (str "x") docFallback [] [] [] aFall (by decide)

/-- C9: every article returned by `extract_from_email` has a URL that is
either empty or `http`-prefixed — every strategy filters candidate hrefs
by that prefix, and the fallback strategy always uses the empty URL. -/
theorem C9_url_scheme (h : Str) (soup : Html) (n e t : Str) (a : Article)
    (ha : a ∈ extractFromEmail h soup n e t) :
    a.url = [] ∨ startsWithL a.url (str "http") = true := by
  obtain ⟨b, hb, rfl, _⟩ := mem_extractFromEmail h soup n e t a ha
  have hu := runStrategies_url soup b hb
  simpa [stamp, urlOk] using hu

set_option maxRecDepth 40000 in
/-- Witness for C9 at a concrete call (the section document). -/
theorem C9_url_scheme_witness :
    aSec.url = [] ∨ startsWithL aSec.url (str "http") = true :=
  C9_url_scheme (str "x") docSections [] [] [] aSec (by decide)

set_option maxRecDepth 40000 in
/-- C5 counterexample: the fallback strategy collapses all whitespace —
including newlines — *before* the line scan, so a document whose visible
text is the 15-character line `Good Title Here` followed by a 110-character
line titles the single article `Newsletter` (the collapsed single line has
126 characters), while the claim's first-qualifying-line reading titles it
`Good Title Here`. -/
theorem C5_counterexample :
    specFallbackTitleC5 docTwoLines = str "Good Title Here" ∧
    (extractFallback docTwoLines).map Article.title = [str "Newsletter"] := by
  constructor
  · decide
  · decide

/-- C5 as amended: the fallback strategy collapses the document's visible
text to a single whitespace-normalized line before the line scan, so the
single article's title is that entire collapsed text when its length is
strictly between 10 and 120 characters, and the fixed placeholder
`Newsletter` otherwise. -/
theorem C5_fallback_title (soup : Html) :
    (extractFallback soup).map Article.title =
      [if 10 < (collapseWs (getTextStrip [' '] soup)).length ∧
          (collapseWs (getTextStrip [' '] soup)).length < 120
       then collapseWs (getTextStrip [' '] soup) else str "Newsletter"] := by
  simp only [extractFallback, List.map_cons, List.map_nil]
  rw [fallbackTitle_collapse]

theorem linksLoop_url_not_seen (l : List AnchorOcc) : ∀ (seen : List Str) (u : Str),
    u ∈ seen → ∀ a ∈ linksLoop l seen, a.url ≠ u := by
  induction l with
  | nil =>
    intro seen u hu a ha
    simp [linksLoop] at ha
  | cons occ rest ih =>
    intro seen u hu a ha
    simp only [linksLoop] at ha
    split at ha
    · exact ih seen u hu a ha
    · split at ha
      · exact ih seen u hu a ha
      · split at ha
        · exact ih seen u hu a ha
        · rename_i hseen
          split at ha
          · exact ih _ u (List.mem_cons_of_mem _ hu) a ha
          · rcases List.mem_cons.mp ha with rfl | hmem
            · intro hequ
              exact hseen (by rw [show pyStrip occ.href = u from hequ]; simpa using hu)
            · exact ih _ u (List.mem_cons_of_mem _ hu) a hmem

theorem linksLoop_first_short (l : List AnchorOcc) : ∀ (seen : List Str) (u : Str),
    firstShortL l u = true → u ∉ seen → ∀ a ∈ linksLoop l seen, a.url ≠ u := by
  induction l with
  | nil =>
    intro seen u hf hns a ha
    simp [linksLoop] at ha
  | cons occ rest ih =>
    intro seen u hf hns a ha
    by_cases hc : isCand u occ = true
    · obtain ⟨⟨hu1, hu2⟩, hu3⟩ :
          (pyStrip occ.href = u ∧ startsWithL (pyStrip occ.href) (str "http") = true) ∧
            isNoiseUrl (pyStrip occ.href) occ.text = false := by
        simpa [isCand, Bool.and_eq_true, Bool.not_eq_true'] using hc
      have hshort : occ.text.length < 10 := by
        unfold firstShortL at hf
        rw [List.filter_cons_of_pos hc] at hf
        simpa using hf
      rw [hu1] at hu2 hu3
      have hcont : seen.contains u = false := by simpa using hns
      have hlen : (occ.text.isEmpty || decide (occ.text.length < 10)) = true := by
        simp [hshort]
      simp only [linksLoop, hu1, hu2, hu3, hcont, hlen, Bool.not_true,
        Bool.false_eq_true, if_false, if_true] at ha
      exact linksLoop_url_not_seen rest (u :: seen) u (by simp) a ha
    · have hf' : firstShortL rest u = true := by
        unfold firstShortL at hf ⊢
        rwa [List.filter_cons_of_neg (by simpa using hc)] at hf
      simp only [linksLoop] at ha
      split at ha
      · exact ih seen u hf' hns a ha
      · rename_i hstart
        split at ha
        · exact ih seen u hf' hns a ha
        · rename_i hnoise
          split at ha
          · exact ih seen u hf' hns a ha
          · have hne : pyStrip occ.href ≠ u := by
              intro heq
              apply hc
              have hst : startsWithL (pyStrip occ.href) (str "http") = true := by
                simpa using hstart
              have hno : isNoiseUrl (pyStrip occ.href) occ.text = false := by
                simpa using hnoise
              have hstu : startsWithL u (str "http") = true := heq ▸ hst
              have hnou : isNoiseUrl u occ.text = false := heq ▸ hno
              simp [isCand, heq, hstu, hnou]
            have hns2 : u ∉ pyStrip occ.href :: seen := by
              intro hmem2
              rcases List.mem_cons.mp hmem2 with hx | hx
              · exact hne hx.symm
              · exact hns hx
            split at ha
            · exact ih _ u hf' hns2 a ha
            · rcases List.mem_cons.mp ha with rfl | hmem
              · simpa using hne
              · exact ih _ u hf' hns2 a hmem

/-- C1 as amended: the pipeline stops at the first strategy that yields at
least one result, so whenever section-based extraction produces any
article, the call's output is exactly the stamped-and-filtered section
output and link-based output never appears.  (A document merely containing
`h2`/`h3` elements somewhere — e.g. nested inside a `div` — need not
trigger the section strategy, which scans only the direct children of the
body; see the counterexample.) -/
theorem C1_section_precedence (h : Str) (soup : Html) (n e t : Str)
    (hh : h ≠ []) (hs : extractBySections soup ≠ []) :
    extractFromEmail h soup n e t =
      ((extractBySections soup).map (stamp n e t (isEssayNewsletter n))).filter
        (fun a => MIN_WORD_COUNT ≤ a.word_count) := by
  have hrun : runStrategies soup = extractBySections soup := by
    unfold runStrategies
    have hse : (extractBySections soup).isEmpty = false := by
      simpa [List.isEmpty_iff] using hs
    simp [hse]
  unfold extractFromEmail
  rw [if_neg (by simpa using hh), hrun]

set_option maxRecDepth 40000 in
/-- Witness for C1 at a concrete sectioned document. -/
theorem C1_section_precedence_witness :
    extractFromEmail (str "x") docSections (str "N") (str "a@ex.com") (str "ts") =
      ((extractBySections docSections).map
          (stamp (str "N") (str "a@ex.com") (str "ts") (isEssayNewsletter (str "N")))).filter
        (fun a => MIN_WORD_COUNT ≤ a.word_count) :=
  C1_section_precedence (str "x") docSections (str "N") (str "a@ex.com") (str "ts")
    (by decide) (by decide)

set_option maxRecDepth 40000 in
/-- C1 counterexample: `docNested` holds both an `h2` element and ordinary
anchors, yet the section strategy (which scans only the direct children of
the body) yields nothing, and the call returns a non-empty, link-based
result — so section-based results are not returned exclusively for every
document that contains headings and anchors. -/
theorem C1_counterexample :
    (findNamed (str "h2") docNested).isSome = true ∧
    (findNamed (str "a") docNested).isSome = true ∧
    extractBySections docNested = [] ∧
    extractFromEmail (str "x") docNested [] [] [] ≠ [] := by
  refine ⟨by decide, by decide, by decide, by decide⟩

/-- C10: in link-based extraction a URL is recorded as seen before the
anchor-text length check, so when the first candidate occurrence of a URL
(stripped, `http`-prefixed, non-noise) has anchor text shorter than 10
characters, no article with that URL is produced in the whole call — even
when a later anchor with the same URL has long enough text. -/
theorem C10_dedup_first_short (soup : Html) (u : Str)
    (h : firstCandShort soup u = true) :
    ∀ a ∈ extractByLinks soup, a.url ≠ u := by
  unfold extractByLinks
  exact linksLoop_first_short (findAllAnchors soup) [] u h (by simp)

set_option maxRecDepth 40000 in
/-- Witness for C10: in `docDup` the first occurrence of the URL has the
4-character anchor text `tiny`, so no article with that URL is produced,
although the second occurrence's anchor text is long enough. -/
theorem C10_dedup_first_short_witness :
    firstCandShort docDup (str "http://ex.com/a/b") = true ∧
    ∀ a ∈ extractByLinks docDup, a.url ≠ str "http://ex.com/a/b" :=
  ⟨by decide, C10_dedup_first_short docDup (str "http://ex.com/a/b") (by decide)⟩

end NewsDigest
